import Mathlib

/-!
Verification of the certman-operator ClusterDeployment controller
(`controllers/clusterdeployment/clusterdeployment_controller.go`).

The Go code is shallowly embedded: Kubernetes objects become Lean structures,
the store (API server state for the cluster's namespace) is a list of
CertificateRequest values threaded through the pass, and every store write is
recorded as a `StoreOp`.  External collaborators (the notification-email
provider, the outcome of finalizer patches and of the out-of-file
`handleDelete` helper) are passed in as explicit parameters.
-/

namespace Certman

/-! ## Go string primitives

Go strings are modelled as Lean `String`s; the handful of `strings` package
functions used by the controller are re-defined here with Go's semantics
(all inputs in this code base are ASCII, where `Char.toLower` agrees with
Go's Unicode lowering). -/

/-- Go `strings.ToLower` (character-wise lowering). -/
def goToLower (s : String) : String := ⟨s.data.map Char.toLower⟩

/-- Go `strings.HasPrefix s pre`. -/
def goStartsWith (s pre : String) : Bool := decide (pre.data = s.data.take pre.data.length)

/-- Go `strings.TrimPrefix s pre`: drops `pre` from the front of `s` when present,
otherwise returns `s` unchanged. -/
def goTrimStart (s pre : String) : String :=
  if goStartsWith s pre then ⟨s.data.drop pre.data.length⟩ else s

/-- Splitting a character list around every occurrence of the slash character,
as Go `strings.Split(s, "/")` does: always returns at least one piece. -/
def splitOnSlashChars : List Char → List (List Char)
  | [] => [[]]
  | c :: cs =>
    if c = '/' then [] :: splitOnSlashChars cs
    else
      match splitOnSlashChars cs with
      | [] => [[c]]
      | h :: t => (c :: h) :: t

/-- Go `strings.Split(s, "/")`. -/
def goSplitSlash (s : String) : List String := (splitOnSlashChars s.data).map String.mk

/-! ## Data model (`hivev1` / `certmanv1alpha1` fields used by the controller) -/

/-- `corev1.ObjectReference` (fields the controller populates). -/
structure ObjectReference where
  kind : String
  ns : String
  name : String
deriving DecidableEq, Repr

/-- `certmanv1alpha1.GCPPlatformSecrets`. -/
structure GCPPlatformSecrets where
  credentialsName : String
deriving DecidableEq, Repr

/-- `certmanv1alpha1.AWSPlatformSecrets`. -/
structure AWSPlatformSecrets where
  credentialsName : String
  region : String
deriving DecidableEq, Repr

/-- `certmanv1alpha1.AzurePlatformSecrets`. -/
structure AzurePlatformSecrets where
  credentialsName : String
  resourceGroupName : String
deriving DecidableEq, Repr

/-- `certmanv1alpha1.Platform`: at most one of the three pointers is non-nil. -/
structure Platform where
  gcp : Option GCPPlatformSecrets
  aws : Option AWSPlatformSecrets
  azure : Option AzurePlatformSecrets
deriving DecidableEq, Repr

/-- `certmanv1alpha1.CertificateRequestSpec`. -/
structure CertificateRequestSpec where
  acmeDNSDomain : String
  certificateSecret : ObjectReference
  dnsNames : List String
  email : String
  apiURL : String
  webConsoleURL : String
  platform : Platform
deriving DecidableEq, Repr

/-- `certmanv1alpha1.CertificateRequest`: name/namespace identity, the spec,
the `Status.Issued` flag owned by the issuance workflow, and the controller
owner reference (set through `controllerutil.SetControllerReference`). -/
structure CertificateRequest where
  name : String
  ns : String
  spec : CertificateRequestSpec
  statusIssued : Bool
  owner : Option String
deriving DecidableEq, Repr

/-- `hivev1.CertificateBundleSpec` (fields used here). -/
structure CertificateBundleSpec where
  name : String
  generate : Bool
  certificateSecretRefName : String
deriving DecidableEq, Repr

/-- `hivev1.CertificateBundleStatus`. -/
structure CertificateBundleStatus where
  name : String
  generated : Bool
deriving DecidableEq, Repr

/-- One entry of `ControlPlaneConfig.ServingCertificates.Additional`. -/
structure ControlPlaneAdditionalCertificate where
  name : String
  domain : String
deriving DecidableEq, Repr

/-- One entry of `ClusterDeploymentSpec.Ingress`. -/
structure IngressEntry where
  domain : String
  servingCertificate : String
deriving DecidableEq, Repr

/-- `hivev1.GCPPlatform` reference data used by the controller. -/
structure CDPlatformGCP where
  credentialsSecretRefName : String
deriving DecidableEq, Repr

/-- `hivev1.AWSPlatform` reference data used by the controller. -/
structure CDPlatformAWS where
  credentialsSecretRefName : String
  region : String
deriving DecidableEq, Repr

/-- `hivev1.AzurePlatform` reference data used by the controller. -/
structure CDPlatformAzure where
  credentialsSecretRefName : String
  baseDomainResourceGroupName : String
deriving DecidableEq, Repr

/-- `hivev1.Platform` on the ClusterDeployment side. -/
structure CDPlatform where
  gcp : Option CDPlatformGCP
  aws : Option CDPlatformAWS
  azure : Option CDPlatformAzure
deriving DecidableEq, Repr

/-- `hivev1.ClusterDeploymentStatus` (fields read or written here). -/
structure ClusterDeploymentStatus where
  apiURL : String
  webConsoleURL : String
  certificateBundles : List CertificateBundleStatus
deriving DecidableEq, Repr

/-- `hivev1.ClusterDeployment`, restricted to the fields this controller reads
or writes.  Labels and annotations are association lists with distinct keys
(Go maps); `deletionTimestampSet` is `!cd.DeletionTimestamp.IsZero()`. -/
structure ClusterDeployment where
  name : String
  ns : String
  labels : List (String × String)
  annotations : List (String × String)
  installed : Bool
  baseDomain : String
  clusterName : String
  servingCertificatesDefault : String
  servingCertificatesAdditional : List ControlPlaneAdditionalCertificate
  ingress : List IngressEntry
  platform : CDPlatform
  certificateBundles : List CertificateBundleSpec
  deletionTimestampSet : Bool
  finalizers : List String
  status : ClusterDeploymentStatus
deriving DecidableEq, Repr

/-- Go map read `m[k]`: `some v` plays the role of `(v, true)`, `none` of
`(zero, false)`. -/
def mapLookup (m : List (String × String)) (k : String) : Option String :=
  (m.find? (fun p => p.fst == k)).map (fun p => p.snd)

/-! ## Constants from the controller file -/

def ClusterDeploymentManagedLabel : String := "api.openshift.com/managed"
def hiveRelocationAnnotationKey : String := "hive.openshift.io/relocate"
def hiveRelocationOutgoingValue : String := "outgoing"
def fakeClusterDeploymentAnnotationKey : String := "managed.openshift.com/fake"
def ClusterDeploymentLimitedSupportLabel : String := "api.openshift.com/limited-support"

/-- Modelled from the spec: the finalizer constant
`certmanv1alpha1.CertmanOperatorFinalizerLabel` is declared outside the given
source file; only its identity matters to the reconciliation logic. -/
def CertmanOperatorFinalizerLabel : String := "certificaterequests.certman.managed.openshift.io"

/-- Modelled from the spec: `utils.ContainsString` (finalizer membership test)
is declared outside the given source file. -/
def containsString (l : List String) (s : String) : Bool := l.any (fun x => x == s)

/-- Modelled from the spec: `utils.RemoveString` (finalizer removal) is
declared outside the given source file. -/
def removeString (l : List String) (s : String) : List String := l.filter (fun x => !(x == s))

/-! ## Store operations

Every write the pass issues against the resource store is recorded as one
`StoreOp`; store reads are evaluated against the threaded store state. -/

/-- One write against the resource store. -/
inductive StoreOp where
  | createCR (cr : CertificateRequest)
  | updateCR (cr : CertificateRequest)
  | deleteCR (name : String)
  | patchStatus (statuses : List CertificateBundleStatus)
  | patchAddFinalizer
  | patchRemoveFinalizer
deriving DecidableEq, Repr

/-- Status-patch writes, as recognised on a trace. -/
def isPatchStatusOp : StoreOp → Bool
  | StoreOp.patchStatus _ => true
  | _ => false

/-- Create/update/delete writes on CertificateRequests, as recognised on a trace. -/
def isMutationOp : StoreOp → Bool
  | StoreOp.createCR _ => true
  | StoreOp.updateCR _ => true
  | StoreOp.deleteCR _ => true
  | _ => false

/-- `Client.Get` of a CertificateRequest by name (the store is already scoped
to the cluster's namespace, and Kubernetes names are unique within it). -/
def storeGet (store : List CertificateRequest) (n : String) : Option CertificateRequest :=
  store.find? (fun c => c.name == n)

/-- Effect of `Client.Update`: the stored object with that name is replaced. -/
def storeReplace (store : List CertificateRequest) (c : CertificateRequest) :
    List CertificateRequest :=
  store.map (fun x => if x.name == c.name then c else x)

/-- Effect of `Client.Delete`: the stored object with that name is removed. -/
def storeRemove (store : List CertificateRequest) (n : String) : List CertificateRequest :=
  store.filter (fun x => !(x.name == n))

/-! ## Domain Resolver (`getDomainsForCertBundle`, lines 324-370) -/

/-- `getDomainsForCertBundle`.  The `EXTRA_RECORD` environment variable is an
explicit parameter; `os.Getenv` yields `""` when it is unset. -/
def getDomainsForCertBundle (cb : CertificateBundleSpec) (cd : ClusterDeployment)
    (extraRecord : String) : List String :=
  let domains : List String := []
  -- first the default control plane record (plus the optional extra record)
  let domains :=
    if cd.servingCertificatesDefault = cb.name then
      let withAPI := domains ++ ["api." ++ cd.clusterName ++ "." ++ cd.baseDomain]
      if extraRecord ≠ "" then
        withAPI ++ [extraRecord ++ "." ++ cd.clusterName ++ "." ++ cd.baseDomain]
      else withAPI
    else domains
  -- then the rest of the control plane
  let domains := cd.servingCertificatesAdditional.foldl
    (fun acc ac => if ac.name == cb.name then acc ++ [ac.domain] else acc) domains
  -- and lastly the ingress list, always as wildcard records
  let domains := cd.ingress.foldl
    (fun acc ing =>
      if ing.servingCertificate == cb.name then
        acc ++ [if goStartsWith ing.domain "*." then ing.domain else "*." ++ ing.domain]
      else acc)
    domains
  domains

/-! ## Request Builder (`createCertificateRequest`, lines 374-432) -/

/-- `createCertificateRequest`.  Each platform branch assigns the whole
`Platform` value, exactly as the Go code overwrites `cr.Spec.Platform`. -/
def createCertificateRequest (certBundleName secretName : String) (domains : List String)
    (cd : ClusterDeployment) (emailAddress : String) : CertificateRequest :=
  let crName := goToLower (cd.name ++ "-" ++ certBundleName)
  let spec0 : CertificateRequestSpec :=
    { acmeDNSDomain := cd.baseDomain
      certificateSecret := { kind := "secret", ns := cd.ns, name := secretName }
      dnsNames := domains
      email := emailAddress
      apiURL := cd.status.apiURL
      webConsoleURL := cd.status.webConsoleURL
      platform := { gcp := none, aws := none, azure := none } }
  let spec1 :=
    match cd.platform.gcp with
    | some g =>
      { spec0 with platform :=
          { gcp := some { credentialsName := g.credentialsSecretRefName }
            aws := none, azure := none } }
    | none => spec0
  let spec2 :=
    match cd.platform.aws with
    | some a =>
      { spec1 with platform :=
          { gcp := none
            aws := some { credentialsName := a.credentialsSecretRefName, region := a.region }
            azure := none } }
    | none => spec1
  let spec3 :=
    match cd.platform.azure with
    | some z =>
      { spec2 with platform :=
          { gcp := none, aws := none
            azure := some { credentialsName := z.credentialsSecretRefName
                            resourceGroupName := z.baseDomainResourceGroupName } } }
    | none => spec2
  { name := crName, ns := cd.ns, spec := spec3, statusIssued := false, owner := none }

/-! ## Full sync (`syncCertificateRequests`, lines 172-303) -/

/-- The desired-request construction loop (lines 183-207).  The
notification-email provider result is one pass-constant outcome; its failure
aborts the whole construction.  A bundle resolving zero domains is logged as a
per-bundle error and skipped without failing the pass. -/
def buildDesired (extraRecord : String) (email : Except String String)
    (cd : ClusterDeployment) : List CertificateBundleSpec → Except String (List CertificateRequest)
  | [] => Except.ok []
  | cb :: rest =>
    if cb.generate then
      let domains := getDomainsForCertBundle cb cd extraRecord
      match email with
      | Except.error e => Except.error e
      | Except.ok addr =>
        match buildDesired extraRecord email cd rest with
        | Except.error e => Except.error e
        | Except.ok tail =>
          if domains.length > 0 then
            Except.ok
              (createCertificateRequest cb.name cb.certificateSecretRefName domains cd addr
                :: tail)
          else Except.ok tail
    else buildDesired extraRecord email cd rest

/-- Pure form of `buildDesired` when the email provider succeeds. -/
def desiredListAux (extraRecord emailAddr : String) (cd : ClusterDeployment) :
    List CertificateBundleSpec → List CertificateRequest
  | [] => []
  | cb :: rest =>
    if cb.generate then
      let domains := getDomainsForCertBundle cb cd extraRecord
      if domains.length > 0 then
        createCertificateRequest cb.name cb.certificateSecretRefName domains cd emailAddr
          :: desiredListAux extraRecord emailAddr cd rest
      else desiredListAux extraRecord emailAddr cd rest
    else desiredListAux extraRecord emailAddr cd rest

/-- Desired requests of one pass for the cluster's bundle list. -/
def desiredList (extraRecord emailAddr : String) (cd : ClusterDeployment) :
    List CertificateRequest :=
  desiredListAux extraRecord emailAddr cd cd.certificateBundles

/-- The delete-set computation (lines 212-223): stored requests whose name has
no desired counterpart, with the inner found-flag loop rendered as `any`. -/
def computeDeleteCRs : List CertificateRequest → List CertificateRequest →
    List CertificateRequest
  | [], _ => []
  | c :: rest, desired =>
    if desired.any (fun d => d.name == c.name) then computeDeleteCRs rest desired
    else c :: computeDeleteCRs rest desired

/-- One iteration of the create/update loop (lines 228-276) for a single
desired request: `Get` by name against the live store, then create (with the
controller owner reference set), update on spec difference, or leave
unchanged; the per-bundle status is named by trimming the `<cd.Name>-` prefix
and its generated flag is false except in the unchanged case, where it copies
the stored request's `Status.Issued`.  Store writes are modelled as
succeeding. -/
def processDesired (cd : ClusterDeployment) (store : List CertificateRequest)
    (d : CertificateRequest) :
    List StoreOp × CertificateBundleStatus × List CertificateRequest :=
  let statusName := goTrimStart d.name (cd.name ++ "-")
  match storeGet store d.name with
  | none =>
    let d' := { d with owner := some cd.name }
    ([StoreOp.createCR d'], { name := statusName, generated := false }, store ++ [d'])
  | some c =>
    if c.spec = d.spec then
      ([], { name := statusName, generated := c.statusIssued }, store)
    else
      let c' := { c with spec := d.spec }
      ([StoreOp.updateCR c'], { name := statusName, generated := false }, storeReplace store c')

/-- Outcome of the create/update loop over all desired requests. -/
structure ApplyResult where
  ops : List StoreOp
  statuses : List CertificateBundleStatus
  store : List CertificateRequest
deriving DecidableEq, Repr

/-- The create/update loop (lines 228-276), threading the live store. -/
def applyDesired (cd : ClusterDeployment) (store : List CertificateRequest) :
    List CertificateRequest → ApplyResult
  | [] => { ops := [], statuses := [], store := store }
  | d :: rest =>
    let r0 := processDesired cd store d
    let r := applyDesired cd r0.2.2 rest
    { ops := r0.1 ++ r.ops, statuses := r0.2.1 :: r.statuses, store := r.store }

/-- The deletion loop (lines 283-290). -/
def applyDeletes (store : List CertificateRequest) :
    List CertificateRequest → List StoreOp × List CertificateRequest
  | [] => ([], store)
  | c :: rest =>
    let r := applyDeletes (storeRemove store c.name) rest
    (StoreOp.deleteCR c.name :: r.fst, r.snd)

/-- `DeepCopy` produces a structurally equal object; under value semantics it
is the value itself. -/
def deepCopyCD (cd : ClusterDeployment) : ClusterDeployment := cd

/-- The status-patch decision (lines 292-300): the copy is taken from the
already-mutated object (line 277 has overwritten `cd.Status.CertificateBundles`),
and the patch is issued only when `cd.Status` differs from that copy's status. -/
def statusPatchOps (cdAfter : ClusterDeployment) (statuses : List CertificateBundleStatus) :
    List StoreOp :=
  let cdCopy := deepCopyCD cdAfter
  if !(cdAfter.status = cdCopy.status) then [StoreOp.patchStatus statuses] else []

/-- Result of one `syncCertificateRequests` call: the successful store writes
in order, the aggregated per-bundle statuses, the resulting store state, and
the returned error if any. -/
structure SyncResult where
  ops : List StoreOp
  statuses : List CertificateBundleStatus
  store : List CertificateRequest
  err : Option String
deriving DecidableEq, Repr

/-- `syncCertificateRequests` (lines 172-303).  `getCurrentCertificateRequests`
lists every CertificateRequest in the cluster's namespace, i.e. the store
itself; store writes succeed in this model, so the error-collection list stays
empty and the only sync-level failure is the email provider's. -/
def syncCertificateRequests (extraRecord : String) (email : Except String String)
    (cd : ClusterDeployment) (store : List CertificateRequest) : SyncResult :=
  let currentCRs := store
  match buildDesired extraRecord email cd cd.certificateBundles with
  | Except.error e => { ops := [], statuses := [], store := store, err := some e }
  | Except.ok desiredCRs =>
    let deleteCRs := computeDeleteCRs currentCRs desiredCRs
    let ar := applyDesired cd store desiredCRs
    -- line 277: cd.Status.CertificateBundles = certBundleStatusList
    let cdAfter := { cd with status := { cd.status with certificateBundles := ar.statuses } }
    let dr := applyDeletes ar.store deleteCRs
    { ops := ar.ops ++ dr.fst ++ statusPatchOps cdAfter ar.statuses
      statuses := ar.statuses
      store := dr.snd
      err := none }

/-! ## Reconcile (`Reconcile`, lines 66-167) -/

/-- Outcome of the relocation gate loop (lines 121-127): Go's
`strings.Split(v, "/")[1]` panics with an index-out-of-range when the
annotation value contains no slash. -/
inductive GateStep where
  | panicNow
  | stopNow
  | next
deriving DecidableEq, Repr

/-- The outgoing-relocation gate: iterate over the annotations; on the
relocation key, index piece 1 of the slash-split value (a runtime panic when
that piece does not exist) and stop reconciling when it equals `outgoing`. -/
def relocationGate : List (String × String) → GateStep
  | [] => GateStep.next
  | (a, v) :: rest =>
    if a = hiveRelocationAnnotationKey then
      match goSplitSlash v with
      | _ :: second :: _ =>
        if second = hiveRelocationOutgoingValue then GateStep.stopNow else relocationGate rest
      | _ => GateStep.panicNow
    else relocationGate rest

/-- The managed gate (lines 102-106): proceed only when the managed label is
present with value "true". -/
def isManaged (cd : ClusterDeployment) : Bool :=
  mapLookup cd.labels ClusterDeploymentManagedLabel == some "true"

/-- The fake-cluster gate (lines 109-113): skip when the fake annotation is
present with value "true". -/
def isFake (cd : ClusterDeployment) : Bool :=
  mapLookup cd.annotations fakeClusterDeploymentAnnotationKey == some "true"

/-- Modelled from the spec: `handleDelete` is defined outside the given source
file; per §4.4 step 7 it deletes every CertificateRequest currently owned by
this resource (full teardown, not the diffed set). -/
def handleDeleteOps (cd : ClusterDeployment) (store : List CertificateRequest) : List StoreOp :=
  (store.filter (fun c => c.owner == some cd.name)).map (fun c => StoreOp.deleteCR c.name)

/-- How one reconciliation pass ends: a runtime panic, a returned error
(retried by the scheduler), or success. -/
inductive Outcome where
  | panicked
  | errored (msg : String)
  | succeeded
deriving DecidableEq, Repr

/-- One reconciliation pass: its ending and the successful store writes. -/
structure ReconcileResult where
  outcome : Outcome
  ops : List StoreOp
deriving DecidableEq, Repr

/-- The tail of the pass once all gates are crossed (lines 160-166). -/
def reconcileActive (extraRecord : String) (email : Except String String)
    (cd : ClusterDeployment) (store : List CertificateRequest) (preOps : List StoreOp) :
    ReconcileResult :=
  let s := syncCertificateRequests extraRecord email cd store
  match s.err with
  | some e => { outcome := Outcome.errored e, ops := preOps ++ s.ops }
  | none => { outcome := Outcome.succeeded, ops := preOps ++ s.ops }

/-- `Reconcile`, starting from the fetched ClusterDeployment (the not-found
and fetch-error branches at lines 79-89 are outside the claims).  The
outcomes of the out-of-file `handleDelete` helper and of the two finalizer
patches are explicit parameters (`none` = success); the trace records only
writes the store accepted. -/
def Reconcile (extraRecord : String) (email : Except String String)
    (handleDeleteErr removeFinalizerErr addFinalizerErr : Option String)
    (cd : ClusterDeployment) (store : List CertificateRequest) : ReconcileResult :=
  if !isManaged cd then { outcome := Outcome.succeeded, ops := [] }
  else if isFake cd then { outcome := Outcome.succeeded, ops := [] }
  else if !cd.installed then { outcome := Outcome.succeeded, ops := [] }
  else
    match relocationGate cd.annotations with
    | GateStep.panicNow => { outcome := Outcome.panicked, ops := [] }
    | GateStep.stopNow => { outcome := Outcome.succeeded, ops := [] }
    | GateStep.next =>
      if cd.deletionTimestampSet then
        if containsString cd.finalizers CertmanOperatorFinalizerLabel then
          match handleDeleteErr with
          | some e => { outcome := Outcome.errored e, ops := [] }
          | none =>
            match removeFinalizerErr with
            | some e => { outcome := Outcome.errored e, ops := handleDeleteOps cd store }
            | none =>
              { outcome := Outcome.succeeded
                ops := handleDeleteOps cd store ++ [StoreOp.patchRemoveFinalizer] }
        else { outcome := Outcome.succeeded, ops := [] }
      else
        if containsString cd.finalizers CertmanOperatorFinalizerLabel then
          reconcileActive extraRecord email cd store []
        else
          match addFinalizerErr with
          | some e => { outcome := Outcome.errored e, ops := [] }
          | none => reconcileActive extraRecord email cd store [StoreOp.patchAddFinalizer]

/-! ## Helper lemmas: strings -/

theorem data_append (s t : String) : (s ++ t).data = s.data ++ t.data := by
  cases s; cases t; rfl

theorem goToLower_data (s : String) : (goToLower s).data = s.data.map Char.toLower := rfl

/-! ## Helper lemmas: slash splitting -/

theorem splitOnSlashChars_ne_nil (l : List Char) : splitOnSlashChars l ≠ [] := by
  induction l with
  | nil => simp [splitOnSlashChars]
  | cons c cs ih =>
    simp only [splitOnSlashChars]
    by_cases hc : c = '/'
    · simp [hc]
    · rw [if_neg hc]
      cases h : splitOnSlashChars cs with
      | nil => simp
      | cons a t => simp

theorem splitOnSlashChars_of_not_mem (l : List Char) (h : '/' ∉ l) :
    splitOnSlashChars l = [l] := by
  induction l with
  | nil => rfl
  | cons c cs ih =>
    have hc : c ≠ '/' := fun hceq => h (hceq ▸ List.mem_cons_self c cs)
    have hcs : '/' ∉ cs := fun hm => h (List.mem_cons_of_mem c hm)
    simp only [splitOnSlashChars, if_neg hc, ih hcs]

theorem two_le_splitOnSlashChars_length (l : List Char) (h : '/' ∈ l) :
    2 ≤ (splitOnSlashChars l).length := by
  induction l with
  | nil => simp at h
  | cons c cs ih =>
    simp only [splitOnSlashChars]
    by_cases hc : c = '/'
    · rw [if_pos hc]
      have h1 : 1 ≤ (splitOnSlashChars cs).length :=
        List.length_pos.mpr (splitOnSlashChars_ne_nil cs)
      simpa using Nat.succ_le_succ h1
    · rw [if_neg hc]
      have hcs : '/' ∈ cs := by
        rcases List.mem_cons.mp h with h' | h'
        · exact absurd h'.symm hc
        · exact h'
      have h2 := ih hcs
      cases hsp : splitOnSlashChars cs with
      | nil => exact absurd hsp (splitOnSlashChars_ne_nil cs)
      | cons a t => simpa [hsp] using h2

/-! ## Helper lemmas: accumulator folds (the domain-resolver loops) -/

theorem foldl_filter_append {α β : Type} (p : α → Bool) (f : α → β) :
    ∀ (l : List α) (init : List β),
      l.foldl (fun acc x => if p x then acc ++ [f x] else acc) init
        = init ++ (l.filter p).map f
  | [], init => by simp
  | x :: xs, init => by
    cases hp : p x <;>
      simp [List.foldl_cons, hp, foldl_filter_append p f xs, List.filter_cons,
        List.append_assoc]

/-! ## Helper lemmas: store reads under writes -/

theorem storeGet_append_some {s : List CertificateRequest} {n : String}
    {c : CertificateRequest} (x : CertificateRequest) (h : storeGet s n = some c) :
    storeGet (s ++ [x]) n = some c := by
  simp only [storeGet] at *
  rw [List.find?_append, h]
  rfl

theorem storeGet_append_ne {s : List CertificateRequest} {n : String}
    {x : CertificateRequest} (hx : x.name ≠ n) :
    storeGet (s ++ [x]) n = storeGet s n := by
  simp only [storeGet]
  rw [List.find?_append]
  have : List.find? (fun c => c.name == n) [x] = none := by simp [hx]
  rw [this]
  cases List.find? (fun c => c.name == n) s <;> rfl

theorem storeGet_append_self {s : List CertificateRequest} {n : String}
    {x : CertificateRequest} (h : storeGet s n = none) (hx : x.name = n) :
    storeGet (s ++ [x]) n = some x := by
  simp only [storeGet] at *
  rw [List.find?_append, h]
  simp [hx]

theorem storeGet_replace_of_eq {s : List CertificateRequest} {n : String}
    {c' c : CertificateRequest} (hn : c'.name = n) (h : storeGet s n = some c) :
    storeGet (storeReplace s c') n = some c' := by
  induction s with
  | nil => simp [storeGet] at h
  | cons x xs ih =>
    by_cases hx : x.name = n
    · have hxc : (x.name == c'.name) = true := by simp [hx, hn]
      simp only [storeReplace, List.map_cons, hxc, if_true, storeGet]
      rw [List.find?_cons_of_pos _ (by simp [hn])]
    · have hxc : (x.name == c'.name) = false := by simp [hx, hn]
      have hneg : ¬ (x.name == n) = true := by simp [hx]
      have hfind : storeGet xs n = some c := by
        simp only [storeGet] at h ⊢
        rwa [List.find?_cons_of_neg (p := fun c => c.name == n) xs hneg] at h
      simp only [storeReplace, List.map_cons, hxc, Bool.false_eq_true, if_false, storeGet]
      rw [List.find?_cons_of_neg (p := fun cr : CertificateRequest => cr.name == n) _ hneg]
      simpa [storeGet, storeReplace] using ih hfind

theorem storeGet_replace_of_ne {s : List CertificateRequest} {n : String}
    {c' : CertificateRequest} (hn : c'.name ≠ n) :
    storeGet (storeReplace s c') n = storeGet s n := by
  induction s with
  | nil => rfl
  | cons x xs ih =>
    by_cases hx : x.name = c'.name
    · have hxn : x.name ≠ n := fun hcontra => hn (hx ▸ hcontra)
      simp only [storeReplace, List.map_cons, hx, beq_self_eq_true, if_true, storeGet]
      rw [List.find?_cons_of_neg _ (by simp [hn]), List.find?_cons_of_neg _ (by simp [hxn])]
      simpa [storeGet, storeReplace] using ih
    · have hxc : (x.name == c'.name) = false := by simp [hx]
      simp only [storeReplace, List.map_cons, hxc, Bool.false_eq_true, if_false, storeGet]
      by_cases hxn : x.name = n
      · rw [List.find?_cons_of_pos _ (by simp [hxn]), List.find?_cons_of_pos _ (by simp [hxn])]
      · rw [List.find?_cons_of_neg _ (by simp [hxn]), List.find?_cons_of_neg _ (by simp [hxn])]
        simpa [storeGet, storeReplace] using ih

theorem storeGet_remove_of_ne {s : List CertificateRequest} {m n : String} (h : m ≠ n) :
    storeGet (storeRemove s m) n = storeGet s n := by
  induction s with
  | nil => rfl
  | cons x xs ih =>
    by_cases hx : x.name = m
    · have hxn : x.name ≠ n := fun hc => h (hx.symm.trans hc)
      simp only [storeRemove, List.filter_cons, hx, beq_self_eq_true, Bool.not_true,
        Bool.false_eq_true, if_false, storeGet]
      rw [List.find?_cons_of_neg _ (by simp [hxn])]
      simpa [storeGet, storeRemove] using ih
    · have hxm : (x.name == m) = false := by simp [hx]
      simp only [storeRemove, List.filter_cons, hxm, Bool.not_false, if_true, storeGet]
      by_cases hxn : x.name = n
      · rw [List.find?_cons_of_pos _ (by simp [hxn]), List.find?_cons_of_pos _ (by simp [hxn])]
      · rw [List.find?_cons_of_neg _ (by simp [hxn]), List.find?_cons_of_neg _ (by simp [hxn])]
        simpa [storeGet, storeRemove] using ih

/-! ## Helper lemmas: the create/update loop -/

theorem storeGet_name {s : List CertificateRequest} {n : String} {c : CertificateRequest}
    (h : storeGet s n = some c) : c.name = n := by
  simp only [storeGet] at h
  have := List.find?_some h
  simpa using this

theorem processDesired_store_establish (cd : ClusterDeployment)
    (store : List CertificateRequest) (d : CertificateRequest) :
    ∃ c', storeGet (processDesired cd store d).2.2 d.name = some c' ∧ c'.spec = d.spec := by
  cases hget : storeGet store d.name with
  | none =>
    refine ⟨{ d with owner := some cd.name }, ?_, rfl⟩
    simp only [processDesired, hget]
    exact storeGet_append_self hget rfl
  | some c =>
    by_cases hspec : c.spec = d.spec
    · refine ⟨c, ?_, hspec⟩
      simp [processDesired, hget, hspec]
    · refine ⟨{ c with spec := d.spec }, ?_, rfl⟩
      simp only [processDesired, hget, if_neg hspec]
      have hcname := storeGet_name hget
      have hn' : ({ c with spec := d.spec } : CertificateRequest).name = d.name := hcname
      exact storeGet_replace_of_eq hn' hget

theorem processDesired_frame (cd : ClusterDeployment) (store : List CertificateRequest)
    (d : CertificateRequest) {n : String} (hn : n ≠ d.name) :
    storeGet (processDesired cd store d).2.2 n = storeGet store n := by
  cases hget : storeGet store d.name with
  | none =>
    simp only [processDesired, hget]
    exact storeGet_append_ne (fun h => hn h.symm)
  | some c =>
    by_cases hspec : c.spec = d.spec
    · simp only [processDesired, hget, if_pos hspec]
    · simp only [processDesired, hget, if_neg hspec]
      have hcname := storeGet_name hget
      have hcn : ({ c with spec := d.spec } : CertificateRequest).name ≠ n := by
        intro hcontra
        exact hn (hcname.symm.trans hcontra).symm
      exact storeGet_replace_of_ne hcn

theorem processDesired_mem (cd : ClusterDeployment) (store : List CertificateRequest)
    (d x : CertificateRequest) (hx : x ∈ (processDesired cd store d).2.2) :
    x ∈ store ∨ x.name = d.name := by
  cases hget : storeGet store d.name with
  | none =>
    simp only [processDesired, hget] at hx
    rcases List.mem_append.mp hx with h | h
    · exact Or.inl h
    · right
      have : x = { d with owner := some cd.name } := by simpa using h
      rw [this]
  | some c =>
    by_cases hspec : c.spec = d.spec
    · simp only [processDesired, hget, if_pos hspec] at hx
      exact Or.inl hx
    · simp only [processDesired, hget, if_neg hspec, storeReplace] at hx
      rcases List.mem_map.mp hx with ⟨y, hy, hxy⟩
      by_cases hyc : (y.name == ({ c with spec := d.spec } : CertificateRequest).name) = true
      · rw [hyc] at hxy
        simp only [if_true] at hxy
        right
        rw [← hxy]
        have hcname := storeGet_name hget
        exact hcname
      · rw [Bool.not_eq_true] at hyc
        rw [hyc] at hxy
        simp only [Bool.false_eq_true, if_false] at hxy
        exact Or.inl (hxy ▸ hy)

theorem processDesired_ops_not_patch (cd : ClusterDeployment) (store : List CertificateRequest)
    (d : CertificateRequest) :
    ∀ op ∈ (processDesired cd store d).1, isPatchStatusOp op = false := by
  intro op hop
  cases hget : storeGet store d.name with
  | none =>
    simp only [processDesired, hget] at hop
    simp only [List.mem_singleton] at hop
    rw [hop]
    rfl
  | some c =>
    by_cases hspec : c.spec = d.spec
    · simp [processDesired, hget, if_pos hspec] at hop
    · simp only [processDesired, hget, if_neg hspec, List.mem_singleton] at hop
      rw [hop]
      rfl

theorem applyDesired_frame (cd : ClusterDeployment) :
    ∀ (ds : List CertificateRequest) (store : List CertificateRequest) {n : String},
      (∀ d ∈ ds, d.name ≠ n) →
      storeGet (applyDesired cd store ds).store n = storeGet store n
  | [], store, n, _ => rfl
  | d :: rest, store, n, h => by
    simp only [applyDesired]
    rw [applyDesired_frame cd rest _ (fun r hr => h r (List.mem_cons_of_mem d hr))]
    exact processDesired_frame cd store d (fun hc => h d (List.mem_cons_self d rest) hc.symm)

theorem applyDesired_establish (cd : ClusterDeployment) :
    ∀ (ds : List CertificateRequest) (store : List CertificateRequest),
      (ds.map (fun d => d.name)).Nodup →
      ∀ d ∈ ds, ∃ c', storeGet (applyDesired cd store ds).store d.name = some c'
        ∧ c'.spec = d.spec
  | [], _, _, d, hd => absurd hd (List.not_mem_nil d)
  | d :: rest, store, hnodup, d0, hd0 => by
    have hnodup' : (d.name :: rest.map (fun d => d.name)).Nodup := by
      simpa only [List.map_cons] using hnodup
    have hnd := List.nodup_cons.mp hnodup'
    rcases List.mem_cons.mp hd0 with rfl | hmem
    · obtain ⟨c', hc', hspec⟩ := processDesired_store_establish cd store d0
      refine ⟨c', ?_, hspec⟩
      simp only [applyDesired]
      rw [applyDesired_frame cd rest _ ?_]
      · exact hc'
      · intro r hr hrn
        exact hnd.1 (hrn ▸ List.mem_map_of_mem (fun d => d.name) hr)
    · exact applyDesired_establish cd rest _ hnd.2 d0 hmem

theorem applyDesired_unchanged (cd : ClusterDeployment) :
    ∀ (ds : List CertificateRequest) (store : List CertificateRequest),
      (∀ d ∈ ds, ∃ c, storeGet store d.name = some c ∧ c.spec = d.spec) →
      (applyDesired cd store ds).ops = [] ∧ (applyDesired cd store ds).store = store
  | [], store, _ => ⟨rfl, rfl⟩
  | d :: rest, store, h => by
    obtain ⟨c, hc, hspec⟩ := h d (List.mem_cons_self d rest)
    have hproc : processDesired cd store d
        = ([], { name := goTrimStart d.name (cd.name ++ "-"), generated := c.statusIssued },
            store) := by
      simp only [processDesired, hc, if_pos hspec]
    have ih := applyDesired_unchanged cd rest store
      (fun r hr => h r (List.mem_cons_of_mem d hr))
    simp only [applyDesired, hproc]
    exact ⟨by simpa using ih.1, by simpa using ih.2⟩

theorem applyDesired_mem (cd : ClusterDeployment) :
    ∀ (ds : List CertificateRequest) (store : List CertificateRequest)
      (x : CertificateRequest), x ∈ (applyDesired cd store ds).store →
      x ∈ store ∨ x.name ∈ ds.map (fun d => d.name)
  | [], store, x, hx => Or.inl hx
  | d :: rest, store, x, hx => by
    simp only [applyDesired] at hx
    rcases applyDesired_mem cd rest _ x hx with h | h
    · rcases processDesired_mem cd store d x h with h' | h'
      · exact Or.inl h'
      · exact Or.inr (by simp [h'])
    · exact Or.inr (by simpa using Or.inr (by simpa using h))

theorem applyDesired_ops_not_patch (cd : ClusterDeployment) :
    ∀ (ds : List CertificateRequest) (store : List CertificateRequest),
      ∀ op ∈ (applyDesired cd store ds).ops, isPatchStatusOp op = false
  | [], _, op, hop => absurd hop (List.not_mem_nil op)
  | d :: rest, store, op, hop => by
    simp only [applyDesired, List.mem_append] at hop
    rcases hop with h | h
    · exact processDesired_ops_not_patch cd store d op h
    · exact applyDesired_ops_not_patch cd rest _ op h

/-! ## Helper lemmas: the delete loop and delete set -/

theorem applyDeletes_ops_eq :
    ∀ (dels : List CertificateRequest) (store : List CertificateRequest),
      (applyDeletes store dels).fst = dels.map (fun c => StoreOp.deleteCR c.name)
  | [], _ => rfl
  | c :: rest, store => by
    simp only [applyDeletes, List.map_cons, applyDeletes_ops_eq rest]

theorem applyDeletes_mem :
    ∀ (dels : List CertificateRequest) (store : List CertificateRequest)
      (x : CertificateRequest), x ∈ (applyDeletes store dels).snd →
      x ∈ store ∧ ∀ c ∈ dels, x.name ≠ c.name
  | [], store, x, hx => ⟨hx, by simp⟩
  | c :: rest, store, x, hx => by
    obtain ⟨hmem, hrest⟩ := applyDeletes_mem rest _ x hx
    have hx' := List.mem_filter.mp hmem
    refine ⟨hx'.1, ?_⟩
    intro c0 hc0
    rcases List.mem_cons.mp hc0 with rfl | hc0'
    · simpa using hx'.2
    · exact hrest c0 hc0'

theorem applyDeletes_frame :
    ∀ (dels : List CertificateRequest) (store : List CertificateRequest) {n : String},
      (∀ c ∈ dels, c.name ≠ n) →
      storeGet (applyDeletes store dels).snd n = storeGet store n
  | [], _, _, _ => rfl
  | c :: rest, store, n, h => by
    simp only [applyDeletes]
    rw [applyDeletes_frame rest _ (fun c0 hc0 => h c0 (List.mem_cons_of_mem c hc0))]
    exact storeGet_remove_of_ne (h c (List.mem_cons_self c rest))

theorem mem_computeDeleteCRs :
    ∀ (cur des : List CertificateRequest) (x : CertificateRequest),
      x ∈ computeDeleteCRs cur des ↔ x ∈ cur ∧ ∀ d ∈ des, d.name ≠ x.name
  | [], des, x => by simp [computeDeleteCRs]
  | c :: rest, des, x => by
    cases hany : des.any (fun d => d.name == c.name) with
    | true =>
      simp only [computeDeleteCRs, hany, if_true]
      rw [mem_computeDeleteCRs rest des x]
      constructor
      · rintro ⟨hmem, hP⟩
        exact ⟨List.mem_cons_of_mem c hmem, hP⟩
      · rintro ⟨hmem, hP⟩
        rcases List.mem_cons.mp hmem with rfl | hmem'
        · obtain ⟨d, hd, hdn⟩ := List.any_eq_true.mp hany
          exact absurd (by simpa using hdn) (hP d hd)
        · exact ⟨hmem', hP⟩
    | false =>
      simp only [computeDeleteCRs, hany, Bool.false_eq_true, if_false]
      have hnone : ∀ d ∈ des, d.name ≠ c.name := by
        intro d hd
        have := List.any_eq_false.mp hany d hd
        simpa using this
      constructor
      · intro hmem
        rcases List.mem_cons.mp hmem with rfl | hmem'
        · exact ⟨List.mem_cons_self x rest, hnone⟩
        · obtain ⟨h1, h2⟩ := (mem_computeDeleteCRs rest des x).mp hmem'
          exact ⟨List.mem_cons_of_mem c h1, h2⟩
      · rintro ⟨hmem, hP⟩
        rcases List.mem_cons.mp hmem with rfl | hmem'
        · exact List.mem_cons_self x _
        · exact List.mem_cons_of_mem c ((mem_computeDeleteCRs rest des x).mpr ⟨hmem', hP⟩)

theorem computeDeleteCRs_eq_nil :
    ∀ (cur des : List CertificateRequest),
      (∀ x ∈ cur, des.any (fun d => d.name == x.name) = true) →
      computeDeleteCRs cur des = []
  | [], _, _ => rfl
  | c :: rest, des, h => by
    simp only [computeDeleteCRs, h c (List.mem_cons_self c rest), if_true]
    exact computeDeleteCRs_eq_nil rest des (fun x hx => h x (List.mem_cons_of_mem c hx))

/-! ## Helper lemmas: desired-request construction -/

theorem buildDesired_ok (extraRecord emailAddr : String) (cd : ClusterDeployment) :
    ∀ l, buildDesired extraRecord (Except.ok emailAddr) cd l
      = Except.ok (desiredListAux extraRecord emailAddr cd l)
  | [] => rfl
  | cb :: rest => by
    by_cases hg : cb.generate
    · simp only [buildDesired, desiredListAux, hg, if_true,
        buildDesired_ok extraRecord emailAddr cd rest]
      by_cases hd : (getDomainsForCertBundle cb cd extraRecord).length > 0
      · rw [if_pos hd, if_pos hd]
      · rw [if_neg hd, if_neg hd]
    · simp only [buildDesired, desiredListAux, hg, Bool.false_eq_true, if_false,
        buildDesired_ok extraRecord emailAddr cd rest]

theorem buildDesired_error (extraRecord e : String) (cd : ClusterDeployment) :
    ∀ l, (∃ cb ∈ l, cb.generate = true) →
      buildDesired extraRecord (Except.error e) cd l = Except.error e
  | [], h => absurd h (by simp)
  | cb :: rest, h => by
    by_cases hg : cb.generate
    · simp [buildDesired, hg]
    · obtain ⟨cb0, hmem, hgen⟩ := h
      rcases List.mem_cons.mp hmem with rfl | hmem'
      · exact absurd hgen (by simpa using hg)
      · simp only [buildDesired, hg, Bool.false_eq_true, if_false]
        exact buildDesired_error extraRecord e cd rest ⟨cb0, hmem', hgen⟩

theorem statusPatchOps_eq_nil (cdAfter : ClusterDeployment)
    (statuses : List CertificateBundleStatus) : statusPatchOps cdAfter statuses = [] := by
  simp [statusPatchOps, deepCopyCD]

/-! ## Helper lemmas: the whole sync -/

theorem sync_ok_eq (extraRecord emailAddr : String) (cd : ClusterDeployment)
    (store : List CertificateRequest) :
    syncCertificateRequests extraRecord (Except.ok emailAddr) cd store =
      { ops := (applyDesired cd store (desiredList extraRecord emailAddr cd)).ops
          ++ (computeDeleteCRs store (desiredList extraRecord emailAddr cd)).map
              (fun c => StoreOp.deleteCR c.name)
        statuses := (applyDesired cd store (desiredList extraRecord emailAddr cd)).statuses
        store := (applyDeletes (applyDesired cd store (desiredList extraRecord emailAddr cd)).store
          (computeDeleteCRs store (desiredList extraRecord emailAddr cd))).snd
        err := none } := by
  simp only [syncCertificateRequests, buildDesired_ok, desiredList]
  rw [statusPatchOps_eq_nil, applyDeletes_ops_eq]
  simp

theorem sync_no_patch_aux (extraRecord : String) (email : Except String String)
    (cd : ClusterDeployment) (store : List CertificateRequest) :
    ∀ op ∈ (syncCertificateRequests extraRecord email cd store).ops,
      isPatchStatusOp op = false := by
  intro op hop
  cases hb : buildDesired extraRecord email cd cd.certificateBundles with
  | error e => simp [syncCertificateRequests, hb] at hop
  | ok desired =>
    simp only [syncCertificateRequests, hb, statusPatchOps_eq_nil, applyDeletes_ops_eq,
      List.append_nil, List.mem_append] at hop
    rcases hop with h | h
    · exact applyDesired_ops_not_patch cd desired store op h
    · obtain ⟨c, _, hc⟩ := List.mem_map.mp h
      rw [← hc]
      rfl

/-! ## Concrete fixtures used in examples and witnesses -/

/-- A managed, installed cluster with one generate-enabled bundle matching the
default control-plane serving-certificate name. -/
def cdBase : ClusterDeployment :=
  { name := "foo-cd"
    ns := "uhc-123"
    labels := [(ClusterDeploymentManagedLabel, "true")]
    annotations := []
    installed := true
    baseDomain := "example.com"
    clusterName := "foo"
    servingCertificatesDefault := "primary-cert"
    servingCertificatesAdditional := []
    ingress := []
    platform := { gcp := none, aws := none, azure := none }
    certificateBundles :=
      [{ name := "primary-cert", generate := true, certificateSecretRefName := "primary-cert-secret" }]
    deletionTimestampSet := false
    finalizers := [CertmanOperatorFinalizerLabel]
    status := { apiURL := "", webConsoleURL := "", certificateBundles := [] } }

/-- The certificate bundle of `cdBase`. -/
def bundlePrimary : CertificateBundleSpec :=
  { name := "primary-cert", generate := true, certificateSecretRefName := "primary-cert-secret" }

/-! ## C1 -/

/-- C1: during an Active full sync the code never issues the status patch:
the comparison at line 294 pits the already-mutated object against its own
deep copy, so it is always an equality and the patch branch is dead.  The
second conjunct exhibits an input on which the claim demands a patch (the
aggregated status differs from the last observed status) and, by the first
conjunct, none is issued. -/
theorem status_patch_never_emitted :
    (∀ (extraRecord : String) (email : Except String String) (cd : ClusterDeployment)
        (store : List CertificateRequest),
      ∀ op ∈ (syncCertificateRequests extraRecord email cd store).ops,
        isPatchStatusOp op = false)
    ∧ (syncCertificateRequests "" (Except.ok "admin@example.com") cdBase []).statuses
        ≠ cdBase.status.certificateBundles := by
  exact ⟨sync_no_patch_aux, by decide⟩

/-! ## C4 -/

/-- C4: the resolved domain list is exactly the ordered concatenation of the
default control-plane record (plus the optional extra record), the verbatim
domains of name-matching additional control-plane entries, and the
wildcardised domains of name-matching ingress entries; on `cdBase` with
cluster `foo` and base domain `example.com` the default bundle resolves to
`api.foo.example.com` alone, and to the extra record as well when one is
configured. -/
theorem domains_resolution :
    (∀ (cb : CertificateBundleSpec) (cd : ClusterDeployment) (extraRecord : String),
      getDomainsForCertBundle cb cd extraRecord =
        (if cd.servingCertificatesDefault = cb.name then
          ["api." ++ cd.clusterName ++ "." ++ cd.baseDomain]
            ++ (if extraRecord ≠ "" then
                  [extraRecord ++ "." ++ cd.clusterName ++ "." ++ cd.baseDomain]
                else [])
         else [])
        ++ (cd.servingCertificatesAdditional.filter (fun ac => ac.name == cb.name)).map
            (fun ac => ac.domain)
        ++ (cd.ingress.filter (fun ing => ing.servingCertificate == cb.name)).map
            (fun ing =>
              if goStartsWith ing.domain "*." then ing.domain else "*." ++ ing.domain))
    ∧ getDomainsForCertBundle bundlePrimary cdBase "" = ["api.foo.example.com"]
    ∧ getDomainsForCertBundle bundlePrimary cdBase "rh-api"
        = ["api.foo.example.com", "rh-api.foo.example.com"] := by
  refine ⟨?_, by decide, by decide⟩
  intro cb cd extraRecord
  simp only [getDomainsForCertBundle]
  rw [foldl_filter_append, foldl_filter_append]
  by_cases h1 : cd.servingCertificatesDefault = cb.name
  · by_cases h2 : extraRecord ≠ "" <;> simp [h1, h2, List.append_assoc]
  · simp [h1, List.append_assoc]

/-! ## C7 -/

/-- C7: the per-bundle generated flag reported onto the parent is the stored
request's `Status.Issued` exactly when the desired request is unchanged
(stored spec equal to desired spec); on the create and update paths it is
false. -/
theorem generated_flag_source :
    ∀ (cd : ClusterDeployment) (store : List CertificateRequest) (d c : CertificateRequest),
      (storeGet store d.name = some c → c.spec = d.spec →
        (processDesired cd store d).2.1.generated = c.statusIssued)
      ∧ (storeGet store d.name = some c → ¬ c.spec = d.spec →
        (processDesired cd store d).2.1.generated = false)
      ∧ (storeGet store d.name = none →
        (processDesired cd store d).2.1.generated = false) := by
  intro cd store d c
  refine ⟨?_, ?_, ?_⟩
  · intro h1 h2
    simp [processDesired, h1, h2]
  · intro h1 h2
    simp [processDesired, h1, h2]
  · intro h1
    simp [processDesired, h1]

/-- A desired request for `cdBase`, and a stored copy of it that the issuance
workflow has marked issued. -/
def crPrimary : CertificateRequest :=
  createCertificateRequest "primary-cert" "primary-cert-secret" ["api.foo.example.com"]
    cdBase "admin@example.com"

def crPrimaryIssued : CertificateRequest :=
  { crPrimary with statusIssued := true, owner := some "foo-cd" }

/-- Witness for C7: with the stored request issued and unchanged, the reported
generated flag is true. -/
theorem generated_flag_source_app :
    (processDesired cdBase [crPrimaryIssued] crPrimary).2.1.generated = true := by
  have h := (generated_flag_source cdBase [crPrimaryIssued] crPrimary crPrimaryIssued).1
    (by decide) (by decide)
  exact h

/-- Witness for C1: the one write the example sync performs is the create,
not a status patch. -/
theorem status_patch_never_emitted_app :
    isPatchStatusOp (StoreOp.createCR { crPrimary with owner := some "foo-cd" }) = false := by
  exact status_patch_never_emitted.1 "" (Except.ok "admin@example.com") cdBase []
    (StoreOp.createCR { crPrimary with owner := some "foo-cd" }) (by decide)

/-! ## C2 -/

/-- `cdBase` marked with a relocation annotation whose value has no slash. -/
def cdReloc : ClusterDeployment :=
  { cdBase with annotations := [(hiveRelocationAnnotationKey, "outgoing")] }

/-- C2: the outgoing-relocation gate is not total: on an annotation value with
no slash separator the index `[1]` of the slash-split value does not exist and
the pass panics instead of returning an error.  The first conjunct
characterises the panic exactly; the second evaluates a full reconciliation
pass on such a cluster. -/
theorem relocation_gate_panics :
    (∀ v : String,
      relocationGate [(hiveRelocationAnnotationKey, v)] = GateStep.panicNow ↔ '/' ∉ v.data)
    ∧ Reconcile "" (Except.ok "admin@example.com") none none none cdReloc []
        = { outcome := Outcome.panicked, ops := [] } := by
  refine ⟨?_, by decide⟩
  intro v
  constructor
  · intro h
    by_contra hmem
    have h2 := two_le_splitOnSlashChars_length v.data hmem
    rcases hsp : splitOnSlashChars v.data with _ | ⟨a, _ | ⟨bp, t⟩⟩
    · exact splitOnSlashChars_ne_nil v.data hsp
    · rw [hsp] at h2
      simp at h2
    · simp only [relocationGate, goSplitSlash, hsp, List.map_cons, if_true] at h
      by_cases hb : String.mk bp = hiveRelocationOutgoingValue
      · rw [if_pos hb] at h
        exact GateStep.noConfusion h
      · rw [if_neg hb] at h
        simp [relocationGate] at h
  · intro hmem
    have hv := splitOnSlashChars_of_not_mem v.data hmem
    simp [relocationGate, goSplitSlash, hv]

/-- Witness for C2: the slash-free value `outgoing` panics the gate. -/
theorem relocation_gate_panics_app :
    relocationGate [(hiveRelocationAnnotationKey, "outgoing")] = GateStep.panicNow := by
  exact (relocation_gate_panics.1 "outgoing").mpr (by decide)

/-! ## C10 -/

theorem mk_data (s : String) : String.mk s.data = s := by
  cases s
  rfl

theorem dash_data : ("-" : String).data = ['-'] := rfl

/-- When trimming the raw `<cluster-name>-` prefix from the lowercased request
name gives back the bundle name, the cluster name must be lowercase-invariant. -/
theorem goTrimStart_toLower (c b : String)
    (h : goTrimStart (goToLower (c ++ "-" ++ b)) (c ++ "-") = b) :
    goToLower c = c := by
  have hsdata : (goToLower (c ++ "-" ++ b)).data
      = c.data.map Char.toLower ++ '-' :: b.data.map Char.toLower := by
    rw [goToLower_data, data_append, data_append, dash_data]
    simp [List.map_append]
  have hpredata : ((c ++ "-") : String).data = c.data ++ ['-'] := by
    rw [data_append, dash_data]
  unfold goTrimStart at h
  by_cases hsw : goStartsWith (goToLower (c ++ "-" ++ b)) (c ++ "-") = true
  · rw [if_pos hsw] at h
    have hswp : ((c ++ "-") : String).data
        = (goToLower (c ++ "-" ++ b)).data.take ((c ++ "-") : String).data.length := by
      simpa only [goStartsWith, decide_eq_true_eq] using hsw
    rw [hpredata, hsdata] at hswp
    have hlen : (c.data ++ ['-']).length = (c.data.map Char.toLower).length + 1 := by
      simp
    rw [hlen] at hswp
    rw [List.take_append] at hswp
    have h1 : ('-' :: b.data.map Char.toLower).take 1 = ['-'] := rfl
    rw [h1] at hswp
    have hc := List.append_cancel_right hswp
    calc goToLower c = String.mk (c.data.map Char.toLower) := rfl
    _ = String.mk c.data := by rw [← hc]
    _ = c := mk_data c
  · rw [if_neg hsw] at h
    have hdata := congrArg String.data h
    rw [hsdata] at hdata
    have hlens := congrArg List.length hdata
    simp only [List.length_append, List.length_cons, List.length_map] at hlens
    omega

/-- `cdBase` renamed with an uppercase letter in the resource name. -/
def cdUpper : ClusterDeployment := { cdBase with name := "Foo" }

/-- `cdBase` renamed to an already-lowercase resource name. -/
def cdLower : ClusterDeployment := { cdBase with name := "low-cd" }

/-- C10: the per-bundle status name is the derived request name with the
literal `<cluster-resource-name>-` prefix trimmed (conjunct 2); trimming can
give back the bundle name only when lowercasing leaves the cluster resource
name unchanged (conjunct 1); and for the uppercase resource name `Foo` the
reported status name is the entire lowercased request name, not the bundle
name (conjuncts 3 and 4). -/
theorem status_name_trimming :
    (∀ (cd : ClusterDeployment) (b sec e : String) (domains : List String),
      goTrimStart (createCertificateRequest b sec domains cd e).name (cd.name ++ "-") = b →
      goToLower cd.name = cd.name)
    ∧ (∀ (cd : ClusterDeployment) (store : List CertificateRequest) (d : CertificateRequest),
        (processDesired cd store d).2.1.name = goTrimStart d.name (cd.name ++ "-"))
    ∧ goTrimStart (createCertificateRequest "bar" "s" ["x"] cdUpper "e@x").name
        (cdUpper.name ++ "-") = goToLower (cdUpper.name ++ "-" ++ "bar")
    ∧ goTrimStart (createCertificateRequest "bar" "s" ["x"] cdUpper "e@x").name
        (cdUpper.name ++ "-") ≠ "bar" := by
  refine ⟨?_, ?_, by decide, by decide⟩
  · intro cd b sec e domains h
    exact goTrimStart_toLower cd.name b h
  · intro cd store d
    cases hget : storeGet store d.name with
    | none => simp [processDesired, hget]
    | some c =>
      by_cases hspec : c.spec = d.spec
      · simp [processDesired, hget, hspec]
      · simp [processDesired, hget, hspec]

/-- Witness for C10: on the lowercase resource name `low-cd` the trim does
return the bundle name, and the theorem then certifies lowercase-invariance. -/
theorem status_name_trimming_app : goToLower cdLower.name = cdLower.name := by
  exact status_name_trimming.1 cdLower "bar" "s" "e@x" ["x"] (by decide)

/-! ## C3 -/

/-- Cluster resource for the diff-plan example: bundles `alpha` (secret
changed to `sA2`) and `gamma`, each resolving one additional-certificate
domain. -/
def cdEx : ClusterDeployment :=
  { cdBase with
    name := "ex"
    servingCertificatesDefault := ""
    servingCertificatesAdditional :=
      [{ name := "alpha", domain := "a.example.com" },
       { name := "gamma", domain := "g.example.com" }]
    certificateBundles :=
      [{ name := "alpha", generate := true, certificateSecretRefName := "sA2" },
       { name := "gamma", generate := true, certificateSecretRefName := "sC" }] }

/-- Stored request A: same name as the desired `alpha` request, older secret. -/
def crAlphaOld : CertificateRequest :=
  { createCertificateRequest "alpha" "sA1" ["a.example.com"] cdEx "admin@example.com" with
      owner := some "ex" }

/-- Stored request B: no desired counterpart. -/
def crBetaOld : CertificateRequest :=
  { createCertificateRequest "beta" "sB" ["b.example.com"] cdEx "admin@example.com" with
      owner := some "ex" }

/-- Stored request C: spec-equal to the desired `gamma` request, already issued. -/
def crGammaOld : CertificateRequest :=
  { createCertificateRequest "gamma" "sC" ["g.example.com"] cdEx "admin@example.com" with
      owner := some "ex", statusIssued := true }

/-- C3: the diff plan partitions by name equality — a stored request is in the
delete set iff no desired request carries its name (conjunct 1); a desired
request whose name no stored request carries is created (conjunct 2), one
matched by name with a different spec is updated in place (conjunct 3), and
one matched with an equal spec produces no write (conjunct 4); on stored
requests A, B, C and desired A-with-changed-spec and C, the pass performs
exactly update(A) and delete(B), with C reported unchanged (conjuncts 5-6). -/
theorem diff_plan_partition :
    (∀ (cur des : List CertificateRequest) (x : CertificateRequest),
      x ∈ computeDeleteCRs cur des ↔ x ∈ cur ∧ ∀ d ∈ des, d.name ≠ x.name)
    ∧ (∀ (cd : ClusterDeployment) (store : List CertificateRequest) (d : CertificateRequest),
        (∀ c ∈ store, c.name ≠ d.name) →
        (processDesired cd store d).1
          = [StoreOp.createCR { d with owner := some cd.name }])
    ∧ (∀ (cd : ClusterDeployment) (store : List CertificateRequest)
        (d c : CertificateRequest),
        storeGet store d.name = some c → ¬ c.spec = d.spec →
        (processDesired cd store d).1 = [StoreOp.updateCR { c with spec := d.spec }])
    ∧ (∀ (cd : ClusterDeployment) (store : List CertificateRequest)
        (d c : CertificateRequest),
        storeGet store d.name = some c → c.spec = d.spec →
        (processDesired cd store d).1 = [])
    ∧ (syncCertificateRequests "" (Except.ok "admin@example.com") cdEx
        [crAlphaOld, crBetaOld, crGammaOld]).ops
        = [StoreOp.updateCR { crAlphaOld with
              spec := (createCertificateRequest "alpha" "sA2" ["a.example.com"] cdEx
                "admin@example.com").spec },
           StoreOp.deleteCR "ex-beta"]
    ∧ (syncCertificateRequests "" (Except.ok "admin@example.com") cdEx
        [crAlphaOld, crBetaOld, crGammaOld]).statuses
        = [{ name := "alpha", generated := false }, { name := "gamma", generated := true }] := by
  refine ⟨mem_computeDeleteCRs, ?_, ?_, ?_, by decide, by decide⟩
  · intro cd store d hno
    have hget : storeGet store d.name = none := by
      simp only [storeGet, List.find?_eq_none]
      intro x hx
      simpa using hno x hx
    simp [processDesired, hget]
  · intro cd store d c h1 h2
    simp [processDesired, h1, h2]
  · intro cd store d c h1 h2
    simp [processDesired, h1, h2]

/-- Witness for C3: a desired request with no stored counterpart is created
with the controller owner reference set. -/
theorem diff_plan_partition_app :
    (processDesired cdEx [] crPrimary).1
      = [StoreOp.createCR { crPrimary with owner := some cdEx.name }] := by
  exact diff_plan_partition.2.1 cdEx [] crPrimary (by simp)

/-! ## C9 -/

/-- C9: a notification-email provider failure while processing a
generate-enabled bundle aborts the whole pass with that error: no store
writes, no statuses, the store untouched (conjunct 1); the pass entry point
surfaces the same error (conjunct 2). -/
theorem email_failure_aborts_pass :
    (∀ (extraRecord e : String) (cd : ClusterDeployment) (store : List CertificateRequest),
      (∃ cb ∈ cd.certificateBundles, cb.generate = true) →
      syncCertificateRequests extraRecord (Except.error e) cd store
        = { ops := [], statuses := [], store := store, err := some e })
    ∧ (∀ (extraRecord e : String) (cd : ClusterDeployment) (store : List CertificateRequest),
      (∃ cb ∈ cd.certificateBundles, cb.generate = true) →
      isManaged cd = true → isFake cd = false → cd.installed = true →
      relocationGate cd.annotations = GateStep.next → cd.deletionTimestampSet = false →
      containsString cd.finalizers CertmanOperatorFinalizerLabel = true →
      Reconcile extraRecord (Except.error e) none none none cd store
        = { outcome := Outcome.errored e, ops := [] }) := by
  have hsync : ∀ (extraRecord e : String) (cd : ClusterDeployment)
      (store : List CertificateRequest),
      (∃ cb ∈ cd.certificateBundles, cb.generate = true) →
      syncCertificateRequests extraRecord (Except.error e) cd store
        = { ops := [], statuses := [], store := store, err := some e } := by
    intro extra e cd store h
    simp [syncCertificateRequests, buildDesired_error extra e cd cd.certificateBundles h]
  refine ⟨hsync, ?_⟩
  intro extra e cd store h hm hf hi hr hd hfin
  simp only [Reconcile, hm, hf, hi, hd, Bool.not_true, Bool.false_eq_true, if_false, if_true,
    hfin, hr]
  simp [reconcileActive, hsync extra e cd store h]

/-- Witness for C9: on `cdBase` (one generate-enabled bundle) an email
provider failure aborts the sync with no writes. -/
theorem email_failure_aborts_pass_app :
    syncCertificateRequests "" (Except.error "no email configured") cdBase []
      = { ops := [], statuses := [], store := [], err := some "no email configured" } := by
  exact email_failure_aborts_pass.1 "" "no email configured" cdBase []
    ⟨bundlePrimary, by decide, by decide⟩

/-! ## C8 -/

/-- A cluster whose single generate-enabled bundle `bad` resolves no domains. -/
def cdStale : ClusterDeployment :=
  { cdBase with
    name := "c8"
    servingCertificatesDefault := ""
    certificateBundles := [{ name := "bad", generate := true, certificateSecretRefName := "s" }] }

/-- The request a previous pass created for bundle `bad` of `cdStale`. -/
def crStale : CertificateRequest :=
  { createCertificateRequest "bad" "s" ["api.placeholder"] cdStale "admin@example.com" with
      owner := some "c8" }

/-- Counterexample for C8: the previously-created request of a bundle that now
resolves zero domains is deleted by the *current* pass (the delete set is
computed and applied within the same sync), not deferred to the next pass. -/
theorem stale_request_deleted_same_pass :
    syncCertificateRequests "" (Except.ok "admin@example.com") cdStale [crStale]
      = { ops := [StoreOp.deleteCR "c8-bad"], statuses := [], store := [], err := none } := by
  decide

/-- C8 (amended): a generate-enabled bundle resolving zero domains never
aborts the pass (conjunct 1), contributes nothing to the desired request set
(conjunct 2), and any stored request left without a desired counterpart — in
particular that bundle's previously-created request — is deleted in the same
pass (conjunct 3). -/
theorem empty_domains_bundle_behavior :
    (∀ (extraRecord emailAddr : String) (cd : ClusterDeployment)
        (store : List CertificateRequest),
      (syncCertificateRequests extraRecord (Except.ok emailAddr) cd store).err = none)
    ∧ (∀ (extraRecord emailAddr : String) (cd : ClusterDeployment)
        (cb : CertificateBundleSpec) (rest : List CertificateBundleSpec),
      cb.generate = true → getDomainsForCertBundle cb cd extraRecord = [] →
      desiredListAux extraRecord emailAddr cd (cb :: rest)
        = desiredListAux extraRecord emailAddr cd rest)
    ∧ (∀ (extraRecord emailAddr : String) (cd : ClusterDeployment)
        (store : List CertificateRequest) (c : CertificateRequest),
      c ∈ store → (∀ d ∈ desiredList extraRecord emailAddr cd, d.name ≠ c.name) →
      StoreOp.deleteCR c.name
        ∈ (syncCertificateRequests extraRecord (Except.ok emailAddr) cd store).ops) := by
  refine ⟨?_, ?_, ?_⟩
  · intro extra e cd store
    rw [sync_ok_eq]
  · intro extra e cd cb rest hg hd
    simp [desiredListAux, hg, hd]
  · intro extra e cd store c hc hno
    rw [sync_ok_eq]
    simp only [List.mem_append]
    right
    exact List.mem_map_of_mem _ ((mem_computeDeleteCRs store _ c).mpr ⟨hc, hno⟩)

/-- Witness for C8: on `cdStale` the stale request qualifies for conjunct 3
and its deletion is part of the current pass. -/
theorem empty_domains_bundle_behavior_app :
    StoreOp.deleteCR crStale.name
      ∈ (syncCertificateRequests "" (Except.ok "admin@example.com") cdStale [crStale]).ops := by
  exact empty_domains_bundle_behavior.2.2 "" "admin@example.com" cdStale [crStale] crStale
    (by decide) (by decide)

/-! ## C5 -/

/-- C5: with the deletion timestamp set on a cluster that reaches the deletion
branch, a present finalizer triggers full teardown (every owned request
deleted, then the finalizer-removal patch); a failure of either the teardown
or the patch surfaces as an error with no finalizer-removal write on the
trace; an absent finalizer yields success with no store writes at all. -/
theorem finalizer_teardown :
    ∀ (extraRecord : String) (email : Except String String)
      (hdErr rfErr afErr : Option String)
      (cd : ClusterDeployment) (store : List CertificateRequest),
      isManaged cd = true → isFake cd = false → cd.installed = true →
      relocationGate cd.annotations = GateStep.next → cd.deletionTimestampSet = true →
      ((containsString cd.finalizers CertmanOperatorFinalizerLabel = true →
        (hdErr = none → rfErr = none →
          Reconcile extraRecord email hdErr rfErr afErr cd store
            = { outcome := Outcome.succeeded
                ops := handleDeleteOps cd store ++ [StoreOp.patchRemoveFinalizer] })
        ∧ (∀ e, hdErr = some e →
          Reconcile extraRecord email hdErr rfErr afErr cd store
            = { outcome := Outcome.errored e, ops := [] })
        ∧ (∀ e, hdErr = none → rfErr = some e →
          Reconcile extraRecord email hdErr rfErr afErr cd store
            = { outcome := Outcome.errored e, ops := handleDeleteOps cd store })
        ∧ (∀ c ∈ store, c.owner = some cd.name →
            StoreOp.deleteCR c.name ∈ handleDeleteOps cd store)
        ∧ StoreOp.patchRemoveFinalizer ∉ handleDeleteOps cd store)
      ∧ (containsString cd.finalizers CertmanOperatorFinalizerLabel = false →
          Reconcile extraRecord email hdErr rfErr afErr cd store
            = { outcome := Outcome.succeeded, ops := [] })) := by
  intro extra email hdErr rfErr afErr cd store hm hf hi hr hd
  have hbase : Reconcile extra email hdErr rfErr afErr cd store
      = (if containsString cd.finalizers CertmanOperatorFinalizerLabel then
          match hdErr with
          | some e => { outcome := Outcome.errored e, ops := [] }
          | none =>
            match rfErr with
            | some e => { outcome := Outcome.errored e, ops := handleDeleteOps cd store }
            | none =>
              { outcome := Outcome.succeeded
                ops := handleDeleteOps cd store ++ [StoreOp.patchRemoveFinalizer] }
         else { outcome := Outcome.succeeded, ops := [] }) := by
    simp only [Reconcile, hm, hf, hi, hd, hr, Bool.not_true, Bool.false_eq_true, if_false,
      if_true]
  constructor
  · intro hfin
    refine ⟨?_, ?_, ?_, ?_, ?_⟩
    · intro h1 h2
      rw [hbase, if_pos hfin, h1, h2]
    · intro e h1
      rw [hbase, if_pos hfin, h1]
    · intro e h1 h2
      rw [hbase, if_pos hfin, h1, h2]
    · intro c hc howner
      exact List.mem_map_of_mem _ (List.mem_filter.mpr ⟨hc, by simp [howner]⟩)
    · simp [handleDeleteOps]
  · intro hfin
    rw [hbase, if_neg (by simp [hfin])]

/-- `cdBase` while being deleted, and two requests it owns. -/
def cdDel : ClusterDeployment := { cdBase with deletionTimestampSet := true }

def cdDelNoFin : ClusterDeployment := { cdDel with finalizers := [] }

def crOwnedA : CertificateRequest := { crPrimary with name := "foo-cd-a", owner := some "foo-cd" }

def crOwnedB : CertificateRequest := { crPrimary with name := "foo-cd-b", owner := some "foo-cd" }

/-- Witness for C5: one pass on the deleting cluster with the finalizer
present deletes both owned requests and then removes the finalizer; without
the finalizer the pass writes nothing. -/
theorem finalizer_teardown_app :
    Reconcile "" (Except.ok "admin@example.com") none none none cdDel [crOwnedA, crOwnedB]
      = { outcome := Outcome.succeeded
          ops := [StoreOp.deleteCR "foo-cd-a", StoreOp.deleteCR "foo-cd-b",
                  StoreOp.patchRemoveFinalizer] }
    ∧ Reconcile "" (Except.ok "admin@example.com") none none none cdDelNoFin
        [crOwnedA, crOwnedB]
      = { outcome := Outcome.succeeded, ops := [] } := by
  constructor
  · have h := ((finalizer_teardown "" (Except.ok "admin@example.com") none none none cdDel
      [crOwnedA, crOwnedB] (by decide) (by decide) (by decide) (by decide) (by decide)).1
      (by decide)).1 rfl rfl
    rw [h]
    decide
  · exact (finalizer_teardown "" (Except.ok "admin@example.com") none none none cdDelNoFin
      [crOwnedA, crOwnedB] (by decide) (by decide) (by decide) (by decide) (by decide)).2
      (by decide)

/-! ## C6 -/

/-- Two generate-enabled bundles whose names collide after lowercasing
(`Foo` and `foo`) but whose specs differ. -/
def cdDup : ClusterDeployment :=
  { cdBase with
    name := "cd1"
    servingCertificatesDefault := ""
    servingCertificatesAdditional :=
      [{ name := "Foo", domain := "h1.example.com" },
       { name := "foo", domain := "h2.example.com" }]
    certificateBundles :=
      [{ name := "Foo", generate := true, certificateSecretRefName := "s1" },
       { name := "foo", generate := true, certificateSecretRefName := "s2" }] }

/-- Counterexample for C6: on `cdDup` the two desired requests share the
derived name `cd1-foo` with different specs, so the second run of the full
sync (on the store produced by the first) still performs mutation
(create/update/delete) operations. -/
theorem sync_not_idempotent_on_collision :
    ((syncCertificateRequests "" (Except.ok "admin@example.com") cdDup
        (syncCertificateRequests "" (Except.ok "admin@example.com") cdDup []).store).ops.filter
      isMutationOp) ≠ [] := by
  decide

/-- C6 (amended): when the desired requests carry pairwise-distinct names —
in particular whenever distinct bundle names stay distinct after lowercasing —
running the full sync twice with no intervening change to the cluster spec or
the stored requests performs zero create/update/delete operations on the
second run, whose delete set is empty. -/
theorem sync_idempotent_of_distinct_names :
    ∀ (extraRecord emailAddr : String) (cd : ClusterDeployment)
      (store : List CertificateRequest),
      ((desiredList extraRecord emailAddr cd).map (fun d => d.name)).Nodup →
      (syncCertificateRequests extraRecord (Except.ok emailAddr) cd
          (syncCertificateRequests extraRecord (Except.ok emailAddr) cd store).store).ops = []
      ∧ computeDeleteCRs
          (syncCertificateRequests extraRecord (Except.ok emailAddr) cd store).store
          (desiredList extraRecord emailAddr cd) = [] := by
  intro extra e cd store hnodup
  have hS1 : (syncCertificateRequests extra (Except.ok e) cd store).store
      = (applyDeletes (applyDesired cd store (desiredList extra e cd)).store
          (computeDeleteCRs store (desiredList extra e cd))).snd := by
    rw [sync_ok_eq]
  have hdel_ne : ∀ c0 ∈ computeDeleteCRs store (desiredList extra e cd),
      ∀ d ∈ desiredList extra e cd, c0.name ≠ d.name := by
    intro c0 hc0 d hd
    have h := ((mem_computeDeleteCRs store (desiredList extra e cd) c0).mp hc0).2 d hd
    exact fun hc => h hc.symm
  have hpost : ∀ d ∈ desiredList extra e cd,
      ∃ c, storeGet (syncCertificateRequests extra (Except.ok e) cd store).store d.name
        = some c ∧ c.spec = d.spec := by
    intro d hd
    obtain ⟨c, hc, hspec⟩ :=
      applyDesired_establish cd (desiredList extra e cd) store hnodup d hd
    refine ⟨c, ?_, hspec⟩
    rw [hS1, applyDeletes_frame _ _ (fun c0 hc0 => hdel_ne c0 hc0 d hd)]
    exact hc
  have hcov : ∀ x ∈ (syncCertificateRequests extra (Except.ok e) cd store).store,
      (desiredList extra e cd).any (fun d => d.name == x.name) = true := by
    intro x hx
    rw [hS1] at hx
    obtain ⟨hxA, hxD⟩ := applyDeletes_mem _ _ x hx
    rcases applyDesired_mem cd (desiredList extra e cd) store x hxA with hxs | hxn
    · by_cases hany : (desiredList extra e cd).any (fun d => d.name == x.name) = true
      · exact hany
      · exfalso
        have hanyf : (desiredList extra e cd).any (fun d => d.name == x.name) = false :=
          Bool.not_eq_true _ ▸ (by simpa using hany)
        have hxdel : x ∈ computeDeleteCRs store (desiredList extra e cd) := by
          refine (mem_computeDeleteCRs store _ x).mpr ⟨hxs, ?_⟩
          intro d hd
          have := List.any_eq_false.mp hanyf d hd
          simpa using this
        exact hxD x hxdel rfl
    · obtain ⟨d, hd, hdn⟩ := List.mem_map.mp hxn
      exact List.any_eq_true.mpr ⟨d, hd, by simp [hdn]⟩
  have hdel2 := computeDeleteCRs_eq_nil _ (desiredList extra e cd) hcov
  have happ := applyDesired_unchanged cd (desiredList extra e cd)
    ((syncCertificateRequests extra (Except.ok e) cd store).store) hpost
  refine ⟨?_, hdel2⟩
  rw [sync_ok_eq extra e cd ((syncCertificateRequests extra (Except.ok e) cd store).store)]
  dsimp only
  rw [happ.1, hdel2]
  rfl

/-- Witness for C6 (amended): on `cdBase` (a single bundle, so distinct
names) the second run performs no operations at all. -/
theorem sync_idempotent_of_distinct_names_app :
    (syncCertificateRequests "" (Except.ok "admin@example.com") cdBase
      (syncCertificateRequests "" (Except.ok "admin@example.com") cdBase []).store).ops
      = [] := by
  exact (sync_idempotent_of_distinct_names "" "admin@example.com" cdBase [] (by decide)).1

end Certman
